import Mathlib

/-!
Shallow embedding of the intl-lib translation resolution engine
(src/src/context.ts, src/src/use-translation.ts and the fuller variants in
src/unnamed/part_000 .. part_002), together with theorems checking the
natural-language specification against it.

Modelling conventions:
- JS objects (translation dictionaries, params records, renderer registries)
  are association lists with first-match lookup.
- Translation values are trees whose leaves are strings (`TransValue`).
- React components are opaque: a renderer is identified by a `Nat`.
- Fallible code (`invariant(...)` throws) returns `Except`.
-/

namespace IntlLib

/-- A locale identifier, used purely as a mapping key. -/
abbrev LocaleId := String

/-- A translation value: a string leaf or a nested object
(mirrors `TranslationType`, a tree of mappings whose leaves are strings). -/
inductive TransValue where
  | vstr : String → TransValue
  | vobj : List (String × TransValue) → TransValue

/-- First-match association-list lookup (JS object property access). -/
def alookup {α : Type} : List (String × α) → String → Option α
  | [], _ => none
  | (k, v) :: rest, t => if k = t then some v else alookup rest t

/-- Walk a list of path segments down a `TransValue`
(the core of lodash `get(data, path)`). -/
def getPath : TransValue → List String → Option TransValue
  | v, [] => some v
  | v, seg :: rest =>
    match v with
    | .vstr _ => none
    | .vobj fs =>
      match alookup fs seg with
      | some w => getPath w rest
      | none => none

/-- Split a dot-separated path into segments (lodash path splitting for
the plain dot paths this library uses). -/
def splitPathAux : List Char → List Char → List String
  | [], acc => [⟨acc.reverse⟩]
  | c :: cs, acc =>
    if c = '.' then ⟨acc.reverse⟩ :: splitPathAux cs []
    else splitPathAux cs (c :: acc)

/-- Split a dot path string into its segments. -/
def splitPath (p : String) : List String := splitPathAux p.data []

/-- lodash `get(data, path)` for a dot-separated `path`. -/
def get (v : TransValue) (path : String) : Option TransValue :=
  getPath v (splitPath path)

/-! ### Interpolation

Embeds `translation.replace(/\$\{\s*([\w.]+)\s*\}/g, (match, key) =>
get(memoizedParams, key) ?? match)` from `useTranslation`
(src/unnamed/part_002) and `Translation` (src/unnamed/part_001). -/

/-- JS regex `\s` character class (whitespace). -/
def isJsSpace (c : Char) : Bool :=
  c.toNat = 32 || c.toNat = 9 || c.toNat = 10 || c.toNat = 11 ||
  c.toNat = 12 || c.toNat = 13 || c.toNat = 160 || c.toNat = 5760 ||
  (8192 ≤ c.toNat && c.toNat ≤ 8202) || c.toNat = 8232 || c.toNat = 8233 ||
  c.toNat = 8239 || c.toNat = 8287 || c.toNat = 12288 || c.toNat = 65279

/-- JS regex `[\w.]` character class: ASCII word characters and the dot. -/
def isWordDot (c : Char) : Bool :=
  (97 ≤ c.toNat && c.toNat ≤ 122) || (65 ≤ c.toNat && c.toNat ≤ 90) ||
  (48 ≤ c.toNat && c.toNat ≤ 57) || c.toNat = 95 || c.toNat = 46

/-- Try to match the regex tail after an opening `$\x7b`:
`\s*([\w.]+)\s*\x7d`.  On success returns the captured key, the full
matched text (including the `$\x7b` and `\x7d` delimiters, with the
whitespace as originally written) and the remaining input after the match.
Greedy matching is deterministic here because the space class, the word
class and the closing brace are pairwise disjoint. -/
def matchPlaceholder (cs : List Char) :
    Option (List Char × List Char × List Char) :=
  match (cs.dropWhile isJsSpace).takeWhile isWordDot,
      ((cs.dropWhile isJsSpace).dropWhile isWordDot).dropWhile isJsSpace with
  | [], _ => none
  | k, '}' :: rest =>
    some (k, '$' :: '{' ::
      (cs.takeWhile isJsSpace ++ k ++
        ((cs.dropWhile isJsSpace).dropWhile isWordDot).takeWhile isJsSpace ++
        ['}']), rest)
  | _, _ => none

/-- The string form of a looked-up param value (JS string coercion inside
`String.prototype.replace`). -/
def stringForm : TransValue → String
  | .vstr s => s
  | .vobj _ => "[object Object]"

theorem dropWhile_len_le (p : Char → Bool) :
    ∀ l : List Char, (l.dropWhile p).length ≤ l.length
  | [] => Nat.le_refl _
  | c :: cs => by
    simp only [List.dropWhile]
    cases p c with
    | true =>
      simp only [List.length_cons]
      exact Nat.le_succ_of_le (dropWhile_len_le p cs)
    | false => exact Nat.le_refl _

theorem matchPlaceholder_rest_length {cs key m rest : List Char}
    (h : matchPlaceholder cs = some (key, m, rest)) :
    rest.length < cs.length := by
  have h1 := dropWhile_len_le isJsSpace cs
  have h2 := dropWhile_len_le isWordDot (cs.dropWhile isJsSpace)
  have h3 := dropWhile_len_le isJsSpace
    ((cs.dropWhile isJsSpace).dropWhile isWordDot)
  unfold matchPlaceholder at h
  split at h
  · exact absurd h (by simp)
  · rename_i p1 p2 restPat hsnd hne
    simp only [Option.some.injEq, Prod.mk.injEq] at h
    obtain ⟨-, -, hr⟩ := h
    subst hr
    have h4 := congrArg List.length hsnd
    simp only [List.length_cons] at h4
    omega
  · exact absurd h (by simp)

/-- One pass of the JS global-replace over the character list: at every
position, a match of `\$\{\s*([\w.]+)\s*\}` is replaced by the looked-up
param value (or kept verbatim when the lookup is nullish); scanning resumes
after the match, so substituted content is never re-interpolated.
The `fuel` argument only bounds the recursion (each step consumes at least
one input character, so any `fuel` at least the input length is enough and
the exhaustion branch is unreachable from `interpolate`). -/
def interpGo (params : TransValue) : Nat → List Char → List Char
  | _, [] => []
  | 0, rest => rest
  | fuel + 1, c :: cs =>
    if c = '$' ∧ cs.head? = some '{' then
      match matchPlaceholder cs.tail with
      | some (key, matched, rest) =>
        (match getPath params (splitPath ⟨key⟩) with
         | some v => (stringForm v).data
         | none => matched) ++ interpGo params fuel rest
      | none => '$' :: '{' :: interpGo params fuel cs.tail
    else c :: interpGo params fuel cs

/-- `translation.replace(/\$\{\s*([\w.]+)\s*\}/g, (m, key) =>
get(params, key) ?? m)`. -/
def interpolate (params : TransValue) (s : String) : String :=
  ⟨interpGo params s.data.length s.data⟩

/-- Whether the placeholder regex `\$\{\s*([\w.]+)\s*\}` matches at some
position of the input. -/
def hasPlaceholderAux : List Char → Bool
  | [] => false
  | c :: cs =>
    (if c = '$' ∧ cs.head? = some '{' then (matchPlaceholder cs.tail).isSome
     else false) || hasPlaceholderAux cs

/-- Whether the placeholder regex matches anywhere in a string. -/
def hasPlaceholder (s : String) : Bool := hasPlaceholderAux s.data

/-! ### useTranslation (src/unnamed/part_002 lines 53-73)

The hook reads `defaults` from the default locale's SWR record and `data`
from the effective locale's record, falling back to `defaults` only when
`data` is nullish (the destructuring default `const { data = defaults }`);
it then applies `get` when a path is given and interpolates params into
string values. The two SWR data fields are the inputs here. -/

def useTranslation (defaults data : Option TransValue)
    (path : Option String) (params : Option TransValue) : Option TransValue :=
  let d := match data with
    | some v => some v
    | none => defaults
  let t := match d, path with
    | some v, some p => get v p
    | _, _ => d
  match params with
  | some ps =>
    match t with
    | some (.vstr s) => some (.vstr (interpolate ps s))
    | _ => t
  | none => t

/-- Effective locale used by a resolution call:
`localeOverride ?? locale`. -/
def effectiveLocale (locale : LocaleId) (localeOverride : Option LocaleId) :
    LocaleId :=
  match localeOverride with
  | some l => l
  | none => locale

/-! ### Tagged-content detection and dispatch (src/unnamed/part_002
lines 103-139, identical in src/unnamed/part_001)

`matchRegex` is `^\[(md|mdx|markdown|img|image|svg|html)\](.*)$` with no
flags, so `.` excludes the line terminators and the match is anchored at
position 0. A renderer (a React component) is opaque here: a `Nat` id. -/

/-- `availableTypes` from the source, in declaration order (the order of
the regex alternation). -/
def availableTypes : List String := ["md", "mdx", "markdown", "img", "image",
  "svg", "html"]

/-- JS regex line terminators, which `.` does not match without the `s`
flag. -/
def isLineTerm (c : Char) : Bool :=
  c.toNat = 10 || c.toNat = 13 || c.toNat = 8232 || c.toNat = 8233

/-- Strip a literal character sequence from the front of the input,
returning the remainder on success. -/
def dropLit : List Char → List Char → Option (List Char)
  | [], s => some s
  | _ :: _, [] => none
  | c :: cs, d :: ds => if c = d then dropLit cs ds else none

/-- The literal characters of a bracketed tag. -/
def tagChars (t : String) : List Char := '[' :: (t.data ++ [']'])

/-- Try each tag of the alternation in order against the start of the
input (regex backtracking order; at most one bracketed tag can match). -/
def findTag : List String → List Char → Option (String × List Char)
  | [], _ => none
  | t :: ts, s =>
    match dropLit (tagChars t) s with
    | some rest => some (t, rest)
    | none => findTag ts s

/-- `content.match(matchRegex)`: matches a recognized `[tag]` at position 0
whose remaining content `(.*)$` contains no line terminator; returns the
captured tag and content body. -/
def matchTagAux (s : List Char) : Option (String × List Char) :=
  match findTag availableTypes s with
  | some (t, body) => if body.any isLineTerm then none else some (t, body)
  | none => none

/-- String-level tag matching. -/
def matchTag (s : String) : Option (String × String) :=
  match matchTagAux s.data with
  | some (t, body) => some (t, ⟨body⟩)
  | none => none

/-- A renderer registry (`renderers` record): content-type tag to opaque
component id. An absent registry is the empty list. -/
abbrev Renderers := List (String × Nat)

/-- The output of the `Translation` component. -/
inductive RenderOut where
  | plain : String → RenderOut
  | rendered : Nat → String → RenderOut

/-- Errors thrown by `invariant(...)` in the rendering pipeline. -/
inductive TransError where
  | unregisteredRenderer : String → TransError
  | invalidTranslation : TransError

/-- The tail of the `Translation` component: tag detection and renderer
dispatch on the interpolated content string. On a tag match the renderer is
`overrideRenderer ?? renderers?.[type]` and
`invariant(renderer != null, ...)` fails when neither exists; without a
match an override renderer still receives the raw string, else the string
is returned as plain text. -/
def dispatch (renderers : Renderers) (override : Option Nat)
    (content : String) : Except TransError RenderOut :=
  match matchTagAux content.data with
  | some (t, body) =>
    match override with
    | some r => .ok (.rendered r ⟨body⟩)
    | none =>
      match alookup renderers t with
      | some r => .ok (.rendered r ⟨body⟩)
      | none => .error (.unregisteredRenderer t)
  | none =>
    match override with
    | some r => .ok (.rendered r content)
    | none => .ok (.plain content)

/-- The `Translation` component (src/unnamed/part_001): takes the value
resolved by `useTranslation(path)`, requires it to be a string
(`invariant(typeof translationSource == 'string', ...)`), interpolates
params into it, then dispatches on the content tag. -/
def Translation (renderers : Renderers) (override : Option Nat)
    (resolved : Option TransValue) (params : Option TransValue) :
    Except TransError RenderOut :=
  match resolved with
  | some (.vstr s) =>
    dispatch renderers override
      (match params with
       | some ps => interpolate ps s
       | none => s)
  | _ => .error .invalidTranslation

/-! ### Locale store (src/unnamed/part_000)

`createIntlStore` holds `defaultLocale`, `locale`, `dictionaries`,
`renderers` and the action `setLocale: locale => set({ locale })` (a
zustand partial update: only the `locale` field changes). -/

/-- A declared dictionary source: a concrete translation object or a
deferred loader (`TranslationType | TranslationLoader`); the loader is
opaque (an id), since only the cache layer invokes it. -/
inductive DictSource where
  | concrete : TransValue → DictSource
  | deferredLoader : Nat → DictSource

/-- Configuration errors raised by `invariant(...)` at initialization. -/
inductive ConfigError where
  | invalidDefaultLocaleConfiguration : LocaleId → ConfigError

/-- The zustand store state created by `createIntlStore`. -/
structure IntlState where
  defaultLocale : LocaleId
  locale : LocaleId
  dictionaries : List (LocaleId × DictSource)
  renderers : Renderers

/-- `setLocale: locale => set({ locale })` — a partial state update that
replaces only the `locale` field. -/
def setLocale (s : IntlState) (l : LocaleId) : IntlState :=
  { s with locale := l }

/-- The default-locale prop after applying its `'en-US'` default value. -/
def defaultedLocale (defaultLocale : Option LocaleId) : LocaleId :=
  match defaultLocale with
  | some l => l
  | none => "en-US"

/-- `IntlProvider` initialization (src/unnamed/part_000 lines 94-119):
the `defaultLocale` prop defaults to `'en-US'`; then
`invariant(dictionaries[defaultLocale] != null, ...)` must pass before the
store is created with the given fields. -/
def IntlProvider (defaultLocale : Option LocaleId) (locale : LocaleId)
    (dictionaries : List (LocaleId × DictSource)) (renderers : Renderers) :
    Except ConfigError IntlState :=
  match alookup dictionaries (defaultedLocale defaultLocale) with
  | none => .error (.invalidDefaultLocaleConfiguration
      (defaultedLocale defaultLocale))
  | some _ =>
    .ok { defaultLocale := defaultedLocale defaultLocale, locale := locale,
          dictionaries := dictionaries, renderers := renderers }

/-! ### De-duplicating dictionary cache

Modelled from the spec: the de-duplicating, load-once per-locale cache
behind `useTranslationSWR` is the external `swr/immutable` library (only
its call site is in this repository), so the load-record state machine of
spec sections 3, 4.2 and 5 is embedded here: per key a record that is
absent (Unresolved) or Pending or Resolved; a request for an absent key
invokes the loader (counted) and installs a Pending record; requests for a
present key attach without invoking; a completion resolves a Pending
record; a Resolved record is immutable for the registry's lifetime. The
retry-on-failure policy is outside the modelled traces. -/

/-- A per-locale load record (spec: state of the cache entry). -/
inductive LoadRecord where
  | pending : LoadRecord
  | resolvedRec : TransValue → LoadRecord

/-- The cache state: record table plus a per-key count of loader
invocations. -/
structure CacheState where
  records : List (LocaleId × LoadRecord)
  invocations : LocaleId → Nat

/-- The cache before any resolution call. -/
def initCache : CacheState :=
  { records := [], invocations := fun _ => 0 }

/-- An event of the cache's lifetime: a resolution call arriving for a
key, or an in-flight load completing with a value. -/
inductive CacheEvent where
  | request : LocaleId → CacheEvent
  | complete : LocaleId → TransValue → CacheEvent

/-- One transition of the cache: a request for an unresolved key invokes
the loader (incrementing its count) and installs the shared Pending
record; a request for a key with any existing record attaches to it; a
completion resolves the Pending record, and never changes a Resolved
record. -/
def cacheStep (s : CacheState) : CacheEvent → CacheState
  | .request k =>
    match alookup s.records k with
    | some _ => s
    | none =>
      { records := (k, .pending) :: s.records,
        invocations := fun k' =>
          if k' = k then s.invocations k' + 1 else s.invocations k' }
  | .complete k v =>
    match alookup s.records k with
    | some .pending =>
      { s with records := (k, .resolvedRec v) :: s.records }
    | _ => s

/-- Run the cache through a sequence of events. -/
def cacheRun (s : CacheState) : List CacheEvent → CacheState
  | [] => s
  | e :: es => cacheRun (cacheStep s e) es

/-- The value a resolution call reads for a key (defined once the record
is Resolved). -/
def readValue (s : CacheState) (k : LocaleId) : Option TransValue :=
  match alookup s.records k with
  | some (.resolvedRec v) => some v
  | _ => none

/-! ## Helper lemmas -/

theorem cacheStep_request (s : CacheState) (k : LocaleId) :
    cacheStep s (.request k) =
      match alookup s.records k with
      | some _ => s
      | none =>
        { records := (k, .pending) :: s.records,
          invocations := fun k' =>
            if k' = k then s.invocations k' + 1 else s.invocations k' } :=
  rfl

theorem cacheStep_complete (s : CacheState) (k : LocaleId)
    (v : TransValue) :
    cacheStep s (.complete k v) =
      match alookup s.records k with
      | some .pending =>
        { s with records := (k, .resolvedRec v) :: s.records }
      | _ => s :=
  rfl

/-- The cache invariant: a key's loader-invocation count is 0 while no
record exists and exactly 1 once one does. -/
def CacheInv (s : CacheState) : Prop :=
  ∀ k, (alookup s.records k = none → s.invocations k = 0) ∧
    (∀ r, alookup s.records k = some r → s.invocations k = 1)

theorem cacheStep_inv {s : CacheState} (h : CacheInv s) (e : CacheEvent) :
    CacheInv (cacheStep s e) := by
  intro k
  cases e with
  | request k' =>
    rw [cacheStep_request]
    cases hrec : alookup s.records k' with
    | some r => exact h k
    | none =>
      simp only [alookup]
      by_cases hk : k' = k
      · subst hk
        constructor
        · intro hc
          simp at hc
        · intro r hc
          simp [(h k').1 hrec]
      · have hk2 : ¬k = k' := fun he => hk he.symm
        constructor
        · intro hc
          simp only [if_neg hk] at hc
          simp only [if_neg hk2]
          exact (h k).1 hc
        · intro r hc
          simp only [if_neg hk] at hc
          simp only [if_neg hk2]
          exact (h k).2 r hc
  | complete k' v =>
    rw [cacheStep_complete]
    cases hrec : alookup s.records k' with
    | some r =>
      cases r with
      | pending =>
        simp only [alookup]
        by_cases hk : k' = k
        · subst hk
          constructor
          · intro hc
            simp at hc
          · intro r hc
            exact (h k').2 .pending hrec
        · constructor
          · intro hc
            simp only [if_neg hk] at hc
            exact (h k).1 hc
          · intro r hc
            simp only [if_neg hk] at hc
            exact (h k).2 r hc
      | resolvedRec w => exact h k
    | none => exact h k

theorem cacheRun_inv {s : CacheState} (h : CacheInv s)
    (tr : List CacheEvent) : CacheInv (cacheRun s tr) := by
  induction tr generalizing s with
  | nil => exact h
  | cons e es ih => exact ih (cacheStep_inv h e)

theorem initCache_inv : CacheInv initCache := by
  intro k
  exact ⟨fun _ => rfl, fun r hc => by simp [initCache, alookup] at hc⟩

theorem cacheStep_resolved_stable {s : CacheState} {k : LocaleId}
    {v : TransValue} (h : readValue s k = some v) (e : CacheEvent) :
    readValue (cacheStep s e) k = some v ∧
    (cacheStep s e).invocations k = s.invocations k := by
  cases e with
  | request k' =>
    rw [cacheStep_request]
    cases hrec : alookup s.records k' with
    | some r => exact ⟨h, rfl⟩
    | none =>
      have hk : ¬k' = k := by
        intro he
        subst he
        unfold readValue at h
        rw [hrec] at h
        exact absurd h (by simp)
      have hk2 : ¬k = k' := fun he => hk he.symm
      constructor
      · unfold readValue at h ⊢
        simp only [alookup, if_neg hk]
        exact h
      · simp only [if_neg hk2]
  | complete k' w =>
    rw [cacheStep_complete]
    cases hrec : alookup s.records k' with
    | some r =>
      cases r with
      | pending =>
        have hk : ¬k' = k := by
          intro he
          subst he
          unfold readValue at h
          rw [hrec] at h
          exact absurd h (by simp)
        constructor
        · unfold readValue at h ⊢
          simp only [alookup, if_neg hk]
          exact h
        · rfl
      | resolvedRec u => exact ⟨h, rfl⟩
    | none => exact ⟨h, rfl⟩

theorem cacheRun_resolved_stable {s : CacheState} {k : LocaleId}
    {v : TransValue} (h : readValue s k = some v) (tr : List CacheEvent) :
    readValue (cacheRun s tr) k = some v ∧
    (cacheRun s tr).invocations k = s.invocations k := by
  induction tr generalizing s with
  | nil => exact ⟨h, rfl⟩
  | cons e es ih =>
    obtain ⟨h1, h2⟩ := cacheStep_resolved_stable h e
    obtain ⟨h3, h4⟩ := ih h1
    exact ⟨h3, h4.trans h2⟩

theorem dropLit_eq (pre : List Char) :
    ∀ s rest, dropLit pre s = some rest → s = pre ++ rest := by
  induction pre with
  | nil =>
    intro s rest h
    simp only [dropLit, Option.some.injEq] at h
    simp [h]
  | cons c cs ih =>
    intro s rest h
    cases s with
    | nil => simp [dropLit] at h
    | cons d ds =>
      simp only [dropLit] at h
      by_cases hc : c = d
      · subst hc
        rw [if_pos rfl] at h
        rw [List.cons_append, ih ds rest h]
      · rw [if_neg hc] at h
        exact absurd h (by simp)

theorem findTag_sound :
    ∀ (ts : List String) (s : List Char) (t : String) (body : List Char),
    findTag ts s = some (t, body) → t ∈ ts ∧ s = tagChars t ++ body := by
  intro ts
  induction ts with
  | nil =>
    intro s t body h
    simp [findTag] at h
  | cons t0 ts ih =>
    intro s t body h
    simp only [findTag] at h
    cases hd : dropLit (tagChars t0) s with
    | some rest =>
      rw [hd] at h
      simp only [Option.some.injEq, Prod.mk.injEq] at h
      obtain ⟨ht, hb⟩ := h
      subst ht
      subst hb
      exact ⟨List.mem_cons_self _ _, dropLit_eq _ _ _ hd⟩
    | none =>
      rw [hd] at h
      obtain ⟨h1, h2⟩ := ih s t body h
      exact ⟨List.mem_cons_of_mem _ h1, h2⟩

theorem findTag_tag {t : String} (ht : t ∈ availableTypes)
    (body : List Char) :
    findTag availableTypes ('[' :: (t.data ++ ']' :: body)) =
      some (t, body) := by
  fin_cases ht <;> rfl

theorem matchTagAux_tag {t : String} (ht : t ∈ availableTypes)
    {body : List Char} (hb : body.any isLineTerm = false) :
    matchTagAux ('[' :: (t.data ++ ']' :: body)) = some (t, body) := by
  unfold matchTagAux
  rw [findTag_tag ht body]
  simp [hb]

theorem matchTagAux_lineTerm {t : String} (ht : t ∈ availableTypes)
    {body : List Char} (hb : body.any isLineTerm = true) :
    matchTagAux ('[' :: (t.data ++ ']' :: body)) = none := by
  unfold matchTagAux
  rw [findTag_tag ht body]
  simp [hb]

theorem tagString_data (t body : String) :
    ("[" ++ t ++ "]" ++ body).data = '[' :: (t.data ++ ']' :: body.data) := by
  simp [String.data_append, List.append_assoc]

theorem word_not_space {c : Char} (h : isWordDot c = true) :
    isJsSpace c = false := by
  unfold isWordDot at h
  simp only [Bool.or_eq_true, Bool.and_eq_true, decide_eq_true_eq] at h
  cases hjs : isJsSpace c with
  | false => rfl
  | true =>
    exfalso
    unfold isJsSpace at hjs
    simp only [Bool.or_eq_true, Bool.and_eq_true, decide_eq_true_eq] at hjs
    omega

theorem takeWhile_all_stop {p : Char → Bool} :
    ∀ (l1 : List Char) (b : Char) (l2 : List Char),
    (∀ c ∈ l1, p c = true) → p b = false →
    (l1 ++ b :: l2).takeWhile p = l1 ∧ (l1 ++ b :: l2).dropWhile p = b :: l2 := by
  intro l1
  induction l1 with
  | nil =>
    intro b l2 h hb
    simp [List.takeWhile, List.dropWhile, hb]
  | cons c cs ih =>
    intro b l2 h hb
    have hc : p c = true := h c (List.mem_cons_self c cs)
    obtain ⟨h1, h2⟩ := ih b l2 (fun x hx => h x (List.mem_cons_of_mem c hx)) hb
    simp [List.takeWhile, List.dropWhile, hc, h1, h2]

/-- Matching the placeholder tail against a non-empty all-word-character
key followed directly by the closing brace succeeds and captures exactly
that key, the rest of the input starting after the brace. -/
theorem matchPlaceholder_keyed (k0 : Char) (key post : List Char)
    (hw : ∀ c ∈ k0 :: key, isWordDot c = true) :
    matchPlaceholder ((k0 :: key) ++ '}' :: post) =
      some (k0 :: key, '$' :: '{' :: ((k0 :: key) ++ ['}']), post) := by
  have hk0 : isWordDot k0 = true := hw k0 (List.mem_cons_self _ _)
  have hsp : isJsSpace k0 = false := word_not_space hk0
  have hbw : isWordDot '}' = false := by decide
  have hbs : isJsSpace '}' = false := by decide
  have hdw1 : ((k0 :: key) ++ '}' :: post).dropWhile isJsSpace =
      (k0 :: key) ++ '}' :: post := by
    simp [List.dropWhile, hsp]
  have htw1 : ((k0 :: key) ++ '}' :: post).takeWhile isJsSpace = [] := by
    simp [List.takeWhile, hsp]
  obtain ⟨htw2, hdw2⟩ := takeWhile_all_stop (k0 :: key) '}' post hw hbw
  have htw3 : ('}' :: post).takeWhile isJsSpace = [] := by
    simp [List.takeWhile, hbs]
  have hdw3 : ('}' :: post).dropWhile isJsSpace = '}' :: post := by
    simp [List.dropWhile, hbs]
  unfold matchPlaceholder
  rw [hdw1, htw2, hdw2, htw3, hdw3, htw1]
  simp

/-- The result of `interpGo` does not depend on the fuel once the fuel
covers the input length. -/
theorem interpGo_fuel (params : TransValue) :
    ∀ (f1 f2 : Nat) (cs : List Char), cs.length ≤ f1 → cs.length ≤ f2 →
    interpGo params f1 cs = interpGo params f2 cs := by
  intro f1
  induction f1 with
  | zero =>
    intro f2 cs h1 h2
    have hcs : cs = [] := by
      cases cs with
      | nil => rfl
      | cons c cs => simp at h1
    subst hcs
    cases f2 <;> rfl
  | succ f1 ih =>
    intro f2 cs h1 h2
    cases cs with
    | nil => cases f2 <;> rfl
    | cons c cs =>
      cases f2 with
      | zero => simp at h2
      | succ f2 =>
        simp only [List.length_cons] at h1 h2
        have htail : cs.tail.length ≤ cs.length := by
          cases cs <;> simp
        simp only [interpGo]
        by_cases hc : c = '$' ∧ cs.head? = some '{'
        · simp only [if_pos hc]
          cases hm : matchPlaceholder cs.tail with
          | some trip =>
            obtain ⟨k, m, r⟩ := trip
            have hr := matchPlaceholder_rest_length hm
            show (match getPath params (splitPath ⟨k⟩) with
                  | some v => (stringForm v).data
                  | none => m) ++ interpGo params f1 r =
                (match getPath params (splitPath ⟨k⟩) with
                  | some v => (stringForm v).data
                  | none => m) ++ interpGo params f2 r
            rw [ih f2 r (by omega) (by omega)]
          | none =>
            show '$' :: '{' :: interpGo params f1 cs.tail =
              '$' :: '{' :: interpGo params f2 cs.tail
            rw [ih f2 cs.tail (by omega) (by omega)]
        · simp only [if_neg hc]
          rw [ih f2 cs (by omega) (by omega)]

/-- A string in which the placeholder regex matches nowhere is returned
unchanged by the interpolation scan. -/
theorem interpGo_no_placeholder (params : TransValue) :
    ∀ (f : Nat) (cs : List Char), hasPlaceholderAux cs = false →
    interpGo params f cs = cs := by
  intro f
  induction f with
  | zero =>
    intro cs h
    cases cs <;> rfl
  | succ f ih =>
    intro cs h
    cases cs with
    | nil => rfl
    | cons c cs =>
      simp only [interpGo]
      by_cases hc : c = '$' ∧ cs.head? = some '{'
      · simp only [hasPlaceholderAux, if_pos hc, Bool.or_eq_false_iff] at h
        obtain ⟨h1, h2⟩ := h
        have hm : matchPlaceholder cs.tail = none :=
          Option.not_isSome_iff_eq_none.mp (by simp [h1])
        rw [if_pos hc, hm]
        show '$' :: '{' :: interpGo params f cs.tail = c :: cs
        obtain ⟨hc1, hc2⟩ := hc
        subst hc1
        cases cs with
        | nil => simp at hc2
        | cons d ds =>
          simp only [List.head?_cons, Option.some.injEq] at hc2
          subst hc2
          simp only [hasPlaceholderAux, Bool.or_eq_false_iff] at h2
          show '$' :: '{' :: interpGo params f ds = '$' :: '{' :: ds
          rw [ih ds h2.2]
      · simp only [hasPlaceholderAux, if_neg hc, Bool.or_eq_false_iff] at h
        rw [if_neg hc, ih cs h.2]

/-- A single non-matching scan step passes one character through. -/
theorem interpGo_cons_no (params : TransValue) (f : Nat) (c : Char)
    (cs : List Char) (h : ¬(c = '$' ∧ cs.head? = some '{')) :
    interpGo params (f + 1) (c :: cs) = c :: interpGo params f cs := by
  simp only [interpGo]
  rw [if_neg h]

/-- The central interpolation step: scanning a prefix without dollar
signs, then an exact placeholder over a non-empty word-character key,
substitutes the looked-up value (or keeps the placeholder text verbatim
when the lookup yields nothing) and continues after the closing brace. -/
theorem interpGo_placeholder (params : TransValue) :
    ∀ (pre : List Char) (fuel : Nat) (k0 : Char) (key post : List Char),
    (pre ++ '$' :: '{' :: ((k0 :: key) ++ '}' :: post)).length ≤ fuel →
    (∀ c ∈ pre, ¬c = '$') → (∀ c ∈ k0 :: key, isWordDot c = true) →
    interpGo params fuel (pre ++ '$' :: '{' :: ((k0 :: key) ++ '}' :: post)) =
      pre ++ (match getPath params (splitPath ⟨k0 :: key⟩) with
              | some v => (stringForm v).data
              | none => '$' :: '{' :: ((k0 :: key) ++ ['}'])) ++
        interpGo params post.length post := by
  intro pre
  induction pre with
  | nil =>
    intro fuel k0 key post hf hpre hw
    cases fuel with
    | zero => simp at hf
    | succ f =>
      simp only [List.nil_append]
      have hred : interpGo params (f + 1)
          ('$' :: '{' :: ((k0 :: key) ++ '}' :: post)) =
          match matchPlaceholder ((k0 :: key) ++ '}' :: post) with
          | some (key2, matched, rest) =>
            (match getPath params (splitPath ⟨key2⟩) with
             | some v => (stringForm v).data
             | none => matched) ++ interpGo params f rest
          | none =>
            '$' :: '{' :: interpGo params f ((k0 :: key) ++ '}' :: post) :=
        rfl
      rw [hred, matchPlaceholder_keyed k0 key post hw]
      show (match getPath params (splitPath ⟨k0 :: key⟩) with
            | some v => (stringForm v).data
            | none => '$' :: '{' :: ((k0 :: key) ++ ['}'])) ++
          interpGo params f post =
        (match getPath params (splitPath ⟨k0 :: key⟩) with
            | some v => (stringForm v).data
            | none => '$' :: '{' :: ((k0 :: key) ++ ['}'])) ++
          interpGo params post.length post
      rw [interpGo_fuel params f post.length post (by
        simp only [List.length_cons, List.length_append] at hf
        omega) (Nat.le_refl _)]
  | cons c pre ih =>
    intro fuel k0 key post hf hpre hw
    have hcne : ¬c = '$' := hpre c (List.mem_cons_self _ _)
    cases fuel with
    | zero => simp at hf
    | succ f =>
      rw [List.cons_append, interpGo_cons_no params f c _
        (fun hcontra => hcne hcontra.1)]
      rw [ih f k0 key post (by
          simp only [List.cons_append, List.length_cons] at hf ⊢
          omega)
        (fun x hx => hpre x (List.mem_cons_of_mem c hx)) hw]
      simp [List.cons_append, List.append_assoc]

/-- The character data of a string built around one placeholder. -/
theorem placeholder_data (pre key post : String) :
    (pre ++ "$\x7b" ++ key ++ "\x7d" ++ post).data =
      pre.data ++ '$' :: '{' :: (key.data ++ '}' :: post.data) := by
  obtain ⟨pd⟩ := pre
  obtain ⟨kd⟩ := key
  obtain ⟨qd⟩ := post
  show (((pd ++ ['$', '{']) ++ kd) ++ ['}']) ++ qd =
    pd ++ '$' :: '{' :: (kd ++ '}' :: qd)
  simp [List.append_assoc]

/-! ## Claims -/

/-- Claim C1, counterexample: with the default dictionary
`a -> (b -> "X")` and the target dictionary `a -> ()`, both resolved,
resolving path `a.b` yields the absent result, not `"X"` (the claimed
value-level fallback to the default dictionary does not happen), although
the default dictionary does hold `"X"` at that path. -/
theorem C1_counterexample :
    useTranslation (some (.vobj [("a", .vobj [("b", .vstr "X")])]))
      (some (.vobj [("a", .vobj [])])) (some "a.b") none = none ∧
    get (.vobj [("a", .vobj [("b", .vstr "X")])]) "a.b" =
      some (.vstr "X") :=
  ⟨rfl, rfl⟩

/-- Claim C1, amended: fallback is dictionary-level, not value-level — when
the target locale's dictionary is resolved, resolving a dot path walks only
the target dictionary, and a missing segment (intermediate or leaf) yields
the absent result without consulting the default dictionary; the default
dictionary is consulted only when the target's resolved data is
unavailable. -/
theorem C1_dictionary_level_fallback (D T : TransValue) (p : String) :
    useTranslation (some D) (some T) (some p) none = get T p := rfl

/-- Claim C2 (spec-modelled cache): single-flight and load-once — over any
event trace from the initial cache, each locale's loader is invoked at most
once; and once a locale's record is resolved with a value, any later
resolution reads that same value and the loader is never re-invoked. -/
theorem C2_single_flight_load_once :
    (∀ (tr : List CacheEvent) (k : LocaleId),
      (cacheRun initCache tr).invocations k ≤ 1) ∧
    (∀ (s : CacheState) (k : LocaleId) (v : TransValue)
      (tr : List CacheEvent), readValue s k = some v →
      readValue (cacheRun s tr) k = some v ∧
      (cacheRun s tr).invocations k = s.invocations k) := by
  constructor
  · intro tr k
    have h := cacheRun_inv initCache_inv tr k
    cases hrec : alookup (cacheRun initCache tr).records k with
    | none =>
      rw [h.1 hrec]
      exact Nat.zero_le 1
    | some r =>
      rw [h.2 r hrec]
  · intro s k v tr h
    exact cacheRun_resolved_stable h tr

/-- Claim C2 witness: a concrete trace — a request resolves `fr-FR` to a
value; a later request re-reads that value with no further loader
invocation, and the total count is 1. -/
theorem C2_witness :
    readValue (cacheRun
      (cacheRun initCache
        [.request "fr-FR", .complete "fr-FR" (.vstr "bonjour")])
      [.request "fr-FR"]) "fr-FR" = some (.vstr "bonjour") ∧
    (cacheRun
      (cacheRun initCache
        [.request "fr-FR", .complete "fr-FR" (.vstr "bonjour")])
      [.request "fr-FR"]).invocations "fr-FR" = 1 := by
  have h := C2_single_flight_load_once.2
    (cacheRun initCache
      [.request "fr-FR", .complete "fr-FR" (.vstr "bonjour")])
    "fr-FR" (.vstr "bonjour") [.request "fr-FR"] rfl
  exact ⟨h.1, h.2.trans rfl⟩

/-- Claim C3: whole-dictionary fallback — when the target locale's resolved
data is unavailable (its load failed or has not produced data), resolving
any path yields the value at that path in the default dictionary, and the
absent result when the default data is also unavailable. -/
theorem C3_whole_dictionary_fallback (D : TransValue) (p : String) :
    useTranslation (some D) none (some p) none = get D p ∧
    useTranslation none none (some p) none = none :=
  ⟨rfl, rfl⟩

/-- Claim C7: fail-fast default-locale configuration — `IntlProvider`
errors at initialization exactly when the dictionaries mapping has no entry
for the (defaulted) default locale; when the entry exists the provider
reaches a usable store whose dictionary sources are untouched (no loader is
consulted, every other locale may be absent). -/
theorem C7_fail_fast (dl : Option LocaleId) (loc : LocaleId)
    (dicts : List (LocaleId × DictSource)) (rs : Renderers) :
    (alookup dicts (defaultedLocale dl) = none →
      IntlProvider dl loc dicts rs =
        .error (.invalidDefaultLocaleConfiguration (defaultedLocale dl))) ∧
    (∀ src, alookup dicts (defaultedLocale dl) = some src →
      IntlProvider dl loc dicts rs =
        .ok { defaultLocale := defaultedLocale dl, locale := loc,
              dictionaries := dicts, renderers := rs }) := by
  constructor
  · intro h
    unfold IntlProvider
    rw [h]
  · intro src h
    unfold IntlProvider
    rw [h]

/-- Claim C7 witness: with the default locale defaulted to `en-US` and an
empty dictionaries mapping the provider fails; with only the default
entry present (the sole other locale absent) it succeeds. -/
theorem C7_witness :
    IntlProvider none "fr-FR" [] [] =
      .error (.invalidDefaultLocaleConfiguration "en-US") ∧
    IntlProvider none "fr-FR" [("en-US", .concrete (.vobj []))] [] =
      .ok { defaultLocale := "en-US", locale := "fr-FR",
            dictionaries := [("en-US", .concrete (.vobj []))],
            renderers := [] } :=
  ⟨(C7_fail_fast none "fr-FR" [] []).1 rfl,
   (C7_fail_fast none "fr-FR" [("en-US", .concrete (.vobj []))] []).2
     (.concrete (.vobj [])) rfl⟩

/-- Claim C8: `setLocale` changes only the active-locale field — default
locale, dictionaries and renderers are untouched — and a resolution call
issued afterwards (with no per-call override) uses the new id as its
effective locale. -/
theorem C8_setLocale_frame (s : IntlState) (l : LocaleId) :
    (setLocale s l).locale = l ∧
    (setLocale s l).defaultLocale = s.defaultLocale ∧
    (setLocale s l).dictionaries = s.dictionaries ∧
    (setLocale s l).renderers = s.renderers ∧
    effectiveLocale (setLocale s l).locale none = l :=
  ⟨rfl, rfl, rfl, rfl, rfl⟩

/-- Claim C4: interpolation — a string in which the placeholder pattern
matches nowhere is returned unchanged; a placeholder over a non-empty
word-character dot-path key, after a prefix free of dollar signs, is
replaced by the looked-up param value's string form when the dot-path
lookup in params succeeds, and is left as its original literal text (no
error, no removal) when the lookup yields nothing, scanning continuing
after the closing brace; concretely, `"Hello, ${name}!"` with name bound
to `"Ann"` yields `"Hello, Ann!"` and `"Hi ${name}"` with only `other`
bound yields `"Hi ${name}"` unchanged. -/
theorem C4_interpolation :
    (∀ (params : TransValue) (s : String), hasPlaceholder s = false →
      interpolate params s = s) ∧
    (∀ (params : TransValue) (pre key post : String),
      (∀ c ∈ pre.data, ¬c = '$') → key.data ≠ [] →
      (∀ c ∈ key.data, isWordDot c = true) →
      interpolate params (pre ++ "$\x7b" ++ key ++ "\x7d" ++ post) =
        pre ++ (match getPath params (splitPath key) with
                | some v => stringForm v
                | none => "$\x7b" ++ key ++ "\x7d") ++ interpolate params post) ∧
    interpolate (.vobj [("name", .vstr "Ann")]) "Hello, ${name}!" =
      "Hello, Ann!" ∧
    interpolate (.vobj [("other", .vstr "x")]) "Hi ${name}" =
      "Hi ${name}" := by
  refine ⟨?_, ?_, by decide, by decide⟩
  · intro params s h
    unfold interpolate
    rw [interpGo_no_placeholder params _ s.data h]
  · intro params pre key post hd hk hw
    obtain ⟨k0, kd, hkey⟩ := List.exists_cons_of_ne_nil hk
    have hw' : ∀ c ∈ k0 :: kd, isWordDot c = true := by
      rw [← hkey]
      exact hw
    have hdata : (pre ++ "$\x7b" ++ key ++ "\x7d" ++ post).data =
        pre.data ++ '$' :: '{' :: ((k0 :: kd) ++ '}' :: post.data) := by
      rw [placeholder_data, hkey]
    apply String.ext
    unfold interpolate
    rw [hdata]
    rw [interpGo_placeholder params pre.data _ k0 kd post.data
      (Nat.le_refl _) hd hw']
    have hsplit : splitPath key = splitPath ⟨k0 :: kd⟩ := by
      unfold splitPath
      rw [hkey]
    rw [hsplit]
    simp only [String.data_append]
    cases hg : getPath params (splitPath ⟨k0 :: kd⟩) with
    | some v => rfl
    | none =>
      show pre.data ++ ('$' :: '{' :: ((k0 :: kd) ++ ['}'])) ++
          interpGo params post.data.length post.data =
        pre.data ++ ("$\x7b" ++ key ++ "\x7d").data ++
          interpGo params post.data.length post.data
      have hsd : ("$\x7b" ++ key ++ "\x7d").data =
          '$' :: '{' :: (key.data ++ ['}']) := by
        obtain ⟨kdl⟩ := key
        show (['$', '{'] ++ kdl) ++ ['}'] = '$' :: '{' :: (kdl ++ ['}'])
        simp
      rw [hsd, hkey]

/-- Claim C4 witness: the no-placeholder part applied at `"plain text"`
and the general placeholder part applied at `"Hello, ${name}!"` with a
successful lookup, the definitions evaluated on the concrete inputs. -/
theorem C4_witness :
    interpolate (.vobj []) "plain text" = "plain text" ∧
    interpolate (.vobj [("name", .vstr "Ann")])
      ("Hello, " ++ "$\x7b" ++ "name" ++ "\x7d" ++ "!") = "Hello, Ann!" :=
  ⟨C4_interpolation.1 (.vobj []) "plain text" (by decide),
   (C4_interpolation.2.1 (.vobj [("name", .vstr "Ann")]) "Hello, " "name"
     "!" (by decide) (by decide) (by decide)).trans (by decide)⟩

/-- Claim C5, counterexample: the string `"[svg]a\nb"` begins with the
recognized type tag `[svg]` and has no override renderer and no registered
`svg` renderer, yet dispatch returns it unchanged as plain text instead of
failing with an UnregisteredRenderer error, because the tag pattern's
content capture does not span the newline. -/
theorem C5_counterexample :
    dispatch [] none "[svg]a\nb" = .ok (.plain "[svg]a\nb") ∧
    "[svg]a\nb" = "[" ++ "svg" ++ "]" ++ "a\nb" :=
  ⟨rfl, rfl⟩

/-- Claim C5, amended: for every string consisting of a recognized
bracketed type tag followed by content containing no line terminator (so
the tag pattern matches), if no override renderer is supplied and the
registry has no handler for the tag, dispatch fails with the
UnregisteredRenderer error rather than returning plain text. -/
theorem C5_unregistered_renderer (renderers : Renderers) (t body : String)
    (ht : t ∈ availableTypes) (hb : body.data.any isLineTerm = false)
    (hr : alookup renderers t = none) :
    dispatch renderers none ("[" ++ t ++ "]" ++ body) =
      .error (.unregisteredRenderer t) := by
  unfold dispatch
  rw [tagString_data, matchTagAux_tag ht hb]
  simp [hr]

/-- Claim C5 witness: `"[svg]<svg/>"` with no registered svg renderer and
no override fails with UnregisteredRenderer. -/
theorem C5_witness :
    dispatch [] none ("[" ++ "svg" ++ "]" ++ "<svg/>") =
      .error (.unregisteredRenderer "svg") :=
  C5_unregistered_renderer [] "svg" "<svg/>" (by decide) (by decide) rfl

/-- Claim C6: tag detection is anchored at position 0 — a string that does
not start with a recognized bracketed tag is returned unchanged as plain
text when no override renderer is supplied (even if it contains a
bracketed-looking substring elsewhere); a string that does match hands the
renderer exactly the remainder after the closing bracket; concretely,
`"[markdown]# Title"` invokes the registered markdown renderer with
content `"# Title"` and `"plain text"` passes through unchanged. -/
theorem C6_anchored_dispatch :
    (∀ (renderers : Renderers) (s : String),
      (∀ t ∈ availableTypes, s.data.take (tagChars t).length ≠ tagChars t) →
      dispatch renderers none s = .ok (.plain s)) ∧
    (∀ (renderers : Renderers) (t body : String) (r : Nat),
      t ∈ availableTypes → body.data.any isLineTerm = false →
      alookup renderers t = some r →
      dispatch renderers none ("[" ++ t ++ "]" ++ body) =
        .ok (.rendered r body)) ∧
    dispatch [("markdown", 7)] none "[markdown]# Title" =
      .ok (.rendered 7 "# Title") ∧
    dispatch [] none "plain text" = .ok (.plain "plain text") := by
  refine ⟨?_, ?_, rfl, rfl⟩
  · intro renderers s hs
    have hnone : matchTagAux s.data = none := by
      unfold matchTagAux
      cases hf : findTag availableTypes s.data with
      | none => rfl
      | some q =>
        obtain ⟨t0, body0⟩ := q
        obtain ⟨hmem, heq⟩ := findTag_sound availableTypes s.data t0 body0 hf
        have htake : s.data.take (tagChars t0).length = tagChars t0 := by
          rw [heq]
          exact List.take_left _ _
        exact absurd htake (hs t0 hmem)
    unfold dispatch
    rw [hnone]
  · intro renderers t body r ht hb hr
    unfold dispatch
    rw [tagString_data, matchTagAux_tag ht hb]
    simp [hr]

/-- Claim C6 witness: a string that merely contains `[md]` but does not
start with a recognized tag passes through as plain text; the tagged
string hands the markdown renderer exactly `"# Title"`. -/
theorem C6_witness :
    dispatch [("md", 4)] none "see [md] later" =
      .ok (.plain "see [md] later") ∧
    dispatch [("markdown", 7)] none ("[" ++ "markdown" ++ "]" ++ "# Title") =
      .ok (.rendered 7 "# Title") :=
  ⟨C6_anchored_dispatch.1 [("md", 4)] "see [md] later" (by decide),
   C6_anchored_dispatch.2.1 [("markdown", 7)] "markdown" "# Title" 7
     (by decide) (by decide) rfl⟩

/-- Claim C9: a newline in the content body defeats tag detection — for
every recognized tag and every body containing a line feed, the tagged
string is not dispatched to any renderer (whatever the registry holds) and,
with no override renderer, is returned unchanged as plain text, visible
bracketed tag included. -/
theorem C9_newline_defeats_tag (renderers : Renderers) (t body : String)
    (ht : t ∈ availableTypes) (hb : '\n' ∈ body.data) :
    dispatch renderers none ("[" ++ t ++ "]" ++ body) =
      .ok (.plain ("[" ++ t ++ "]" ++ body)) := by
  have hany : body.data.any isLineTerm = true :=
    List.any_eq_true.mpr ⟨'\n', hb, by decide⟩
  unfold dispatch
  rw [tagString_data, matchTagAux_lineTerm ht hany]

/-- Claim C9 witness: `"[md]a\nb"` is returned as plain text even though a
md renderer is registered. -/
theorem C9_witness :
    dispatch [("md", 0)] none ("[" ++ "md" ++ "]" ++ "a\nb") =
      .ok (.plain ("[" ++ "md" ++ "]" ++ "a\nb")) :=
  C9_newline_defeats_tag [("md", 0)] "md" "a\nb" (by decide) (by decide)

/-- Claim C10: the `Translation` component fails with an error when the
resolved value is not a string — both for an absent value and for a nested
subtree — while the `useTranslation` hook returns the absent result for a
missing leaf (shown on a concrete dictionary lacking path `b`). -/
theorem C10_nonstring_rejected (renderers : Renderers) (ov : Option Nat)
    (params : Option TransValue) :
    Translation renderers ov none params = .error .invalidTranslation ∧
    (∀ fs, Translation renderers ov (some (.vobj fs)) params =
      .error .invalidTranslation) ∧
    useTranslation (some (.vobj [("a", .vstr "x")]))
      (some (.vobj [("a", .vstr "x")])) (some "b") none = none :=
  ⟨rfl, fun _ => rfl, rfl⟩

end IntlLib
